import Mathlib

/-!
Verification of the Solana NFT stake program.

Shallow embedding of `src/state.rs`, `src/error.rs` and `src/processor.rs`.

Modelling conventions:
* Account storage bytes are a `List Nat`; well-formed storage has every byte `< 256`.
* A public key is a `Nat`, serialized as 32 little-endian base-256 bytes
  (so keys are taken modulo `256 ^ 32` by the encoder, as the 32-byte array does).
* An `i64` (`UnixTimestamp`) is an `Int`; arithmetic and encoding reduce to the
  signed two's-complement 64-bit range via `wrapI64`, matching release-build
  (wrapping) semantics of Rust `i64` subtraction and the borsh byte encoding.
* Borsh (de)serialization of `UserStakeInfo` is modelled field by field in
  declaration order, as `#[derive(BorshSerialize, BorshDeserialize)]` produces it;
  `try_from_slice_unchecked` reads a prefix of the buffer and does not require
  the buffer to be consumed exactly.  Deserializing a `bool` byte other than 0/1
  fails; the processor's `.unwrap()` on that failure is modelled as a crash
  (Rust panic), a distinct outcome from returning an error.
* Each processor run is summarized by an `Outcome`: the `StepResult` (success
  with the final account and the reported reward, error with the account as the
  instruction leaves it, or crash) plus a trace of durable-state events
  (validation checks performed, account allocation, record write-back), in the
  order the source performs them.
* The runtime collaborators are modelled at their interface: `find_program_address`
  is an arbitrary function parameter `derive`; `invoke_signed(create_account ...)`
  requires the funding user to be a transaction signer (checked by the runtime at
  CPI time, before the system program mutates anything), fails if the target
  account is already in use (nonzero lamports or data), and on success allocates
  `UserStakeInfo::SIZE` zeroed bytes owned by the program; `Clock::get()` and
  `Rent::get()` are environment inputs.
-/

namespace NftStake

/-- Little-endian base-256 encoding of `k` into exactly `n` bytes
(the encoder keeps `k mod 256 ^ n`). -/
def toBytesLE : Nat → Nat → List Nat
  | 0, _ => []
  | n + 1, k => k % 256 :: toBytesLE n (k / 256)

/-- Little-endian base-256 decoding of a byte list. -/
def fromBytesLE : List Nat → Nat
  | [] => 0
  | b :: bs => b + 256 * fromBytesLE bs

/-- Reduce an integer to the signed two's-complement 64-bit range. -/
def wrapI64 (i : Int) : Int :=
  let m := i % (2 ^ 64 : Int)
  if m < 2 ^ 63 then m else m - 2 ^ 64

/-- Borsh encoding of an `i64`: 8 little-endian bytes of its two's complement. -/
def encodeI64 (i : Int) : List Nat := toBytesLE 8 (i % (2 ^ 64 : Int)).toNat

/-- Borsh decoding of an `i64` from 8 little-endian bytes. -/
def decodeI64 (bs : List Nat) : Int := wrapI64 (fromBytesLE bs)

/-- Borsh encoding of a `bool`. -/
def boolByte (b : Bool) : Nat := if b then 1 else 0

/-- Borsh decoding of a `bool`: the byte must be exactly 0 or 1. -/
def parseBool (b : Nat) : Option Bool :=
  if b = 0 then some false else if b = 1 then some true else none

/-- `src/state.rs`: `UserStakeInfo`.  Fields in source declaration order;
`is_initialized` is rendered `initDone`, `token_account` as `tokenAccount`,
`stake_start_time` as `stakeStartTime`, `last_redeem_time` as `lastRedeemTime`,
`is_stake_active` as `isStakeActive`. -/
structure UserStakeInfo where
  initDone : Bool
  user : Nat
  tokenAccount : Nat
  stakeStartTime : Int
  lastRedeemTime : Int
  isStakeActive : Bool
  deriving DecidableEq, Repr

/-- `src/state.rs`: `pub const SIZE: usize = 1 + 32 + 32 + 64 + 64 + 1;`. -/
def UserStakeInfo.SIZE : Nat := 1 + 32 + 32 + 64 + 64 + 1

/-- Borsh serialization of `UserStakeInfo`, field by field in declaration order. -/
def serializeInfo (u : UserStakeInfo) : List Nat :=
  boolByte u.initDone ::
    (toBytesLE 32 u.user ++ toBytesLE 32 u.tokenAccount ++
      encodeI64 u.stakeStartTime ++ encodeI64 u.lastRedeemTime ++
      [boolByte u.isStakeActive])

/-- Read one byte from the input stream. -/
def readByte : List Nat → Option (Nat × List Nat)
  | [] => none
  | b :: bs => some (b, bs)

/-- Read exactly `n` bytes from the input stream. -/
def readN : Nat → List Nat → Option (List Nat × List Nat)
  | 0, bs => some ([], bs)
  | _ + 1, [] => none
  | n + 1, b :: bs =>
    match readN n bs with
    | none => none
    | some (xs, r) => some (b :: xs, r)

/-- Borsh deserialization of `UserStakeInfo` from a prefix of the buffer,
as `try_from_slice_unchecked::<UserStakeInfo>` performs it (no check that the
whole buffer is consumed). -/
def deserializeInfo (bs : List Nat) : Option UserStakeInfo :=
  match readByte bs with
  | none => none
  | some (b0, r1) =>
    match parseBool b0 with
    | none => none
    | some f0 =>
      match readN 32 r1 with
      | none => none
      | some (us, r2) =>
        match readN 32 r2 with
        | none => none
        | some (ts, r3) =>
          match readN 8 r3 with
          | none => none
          | some (ss, r4) =>
            match readN 8 r4 with
            | none => none
            | some (ls, r5) =>
              match readByte r5 with
              | none => none
              | some (b1, _) =>
                match parseBool b1 with
                | none => none
                | some f1 =>
                  some ⟨f0, fromBytesLE us, fromBytesLE ts,
                    decodeI64 ss, decodeI64 ls, f1⟩

/-- `account_data.serialize(&mut &mut stake_state.data.borrow_mut()[..])`:
borsh overwrites the prefix of the buffer in place.  If the buffer is shorter
than the encoding, the fitting prefix has already been overwritten when the
io error (mapped to `ProgramError::BorshIoError` by `?`) is returned. -/
def storeRecord (u : UserStakeInfo) (buf : List Nat) : Bool × List Nat :=
  let enc := serializeInfo u
  if enc.length ≤ buf.length then (true, enc ++ buf.drop enc.length)
  else (false, enc.take buf.length)

/-- The slice of an account the processor touches: address, owning program,
lamport balance, and data bytes. -/
structure Account where
  key : Nat
  owner : Nat
  lamports : Nat
  data : List Nat
  deriving DecidableEq, Repr

/-- Per-invocation environment: the user account's key and signer flag, the
NFT token account's key, the clock sysvar reading, and the rent-exempt balance
the runtime computes for `UserStakeInfo::SIZE` bytes. -/
structure Env where
  userKey : Nat
  userIsSigner : Bool
  nftKey : Nat
  unixTimestamp : Int
  rent : Nat
  deriving DecidableEq, Repr

/-- The errors the processor (or the runtime call it makes) can return.
`invalidPda`, `uninitAccount`, `invalidTokenAccount`, `invalidStakeAccount`
are `StakeError` variants from `src/error.rs` (as `ProgramError::Custom`);
`invalidArgument` is `ProgramError::InvalidArgument`, the code the processor
uses for the spec's `AlreadyActive` / `NotActive` state-precondition failures;
`accountAlreadyInit` is `ProgramError::AccountAlreadyInitialized`;
`accountAlreadyInUse` is the runtime's `create_account` failure on an account
that already exists; `borshIoError` is a failed serialize into the buffer. -/
inductive ProgErr where
  | missingRequiredSignature
  | illegalOwner
  | invalidPda
  | accountAlreadyInit
  | uninitAccount
  | invalidArgument
  | invalidTokenAccount
  | invalidStakeAccount
  | accountAlreadyInUse
  | borshIoError
  deriving DecidableEq, Repr

/-- The individual validation checks the processor performs. -/
inductive CheckId where
  | signerCheck
  | ownerCheck
  | pdaCheck
  | initCheck
  | activeCheck
  | userMatch
  | tokenMatch
  deriving DecidableEq, Repr

/-- Durable-state events of one processor run: a validation check performed,
the allocation/funding of the record account by `create_account`, or a
write-back of the serialized record into the account's data. -/
inductive Event where
  | check (c : CheckId)
  | alloc
  | writeRec
  deriving DecidableEq, Repr

/-- Result of one processor run: success (final account and reported reward),
error (with the account as the failing instruction leaves it), or a Rust
panic from `.unwrap()`. -/
inductive StepResult where
  | ok (a : Account) (reward : Option Int)
  | fail (e : ProgErr) (a : Account)
  | crash (a : Account)
  deriving DecidableEq, Repr

/-- A processor run: its result plus the ordered durable-state event trace. -/
structure Outcome where
  res : StepResult
  trace : List Event
  deriving DecidableEq, Repr

def StepResult.isOk : StepResult → Bool
  | .ok _ _ => true
  | _ => false

def StepResult.isFail : StepResult → Bool
  | .fail _ _ => true
  | _ => false

def StepResult.isCrash : StepResult → Bool
  | .crash _ => true
  | _ => false

/-- The account as the run leaves it. -/
def StepResult.account : StepResult → Account
  | .ok a _ => a
  | .fail _ a => a
  | .crash a => a

/-- The reward the run reports (`msg!("Reward: {}", reward_amt)`), if any. -/
def StepResult.rewardOf : StepResult → Option Int
  | .ok _ r => r
  | _ => none

def StepResult.errorOf : StepResult → Option ProgErr
  | .fail e _ => some e
  | _ => none

/-- `process_stake` lines 111-115: the in-memory record mutation. -/
def stakeUpd (env : Env) (d : UserStakeInfo) : UserStakeInfo :=
  { d with
      user := env.userKey
      tokenAccount := env.nftKey
      stakeStartTime := env.unixTimestamp
      lastRedeemTime := env.unixTimestamp
      isStakeActive := true }

/-- `process_redeem` line 157: the in-memory record mutation. -/
def redeemUpd (env : Env) (d : UserStakeInfo) : UserStakeInfo :=
  { d with lastRedeemTime := env.unixTimestamp }

/-- `process_unstake` lines 198-199: the in-memory record mutation. -/
def unstakeUpd (env : Env) (d : UserStakeInfo) : UserStakeInfo :=
  { d with lastRedeemTime := env.unixTimestamp, isStakeActive := false }

/-- `process_initialize_stake_account` lines 74-77: the in-memory record
mutation (the two timestamps are left as deserialized from the zeroed data). -/
def initUpd (env : Env) (d : UserStakeInfo) : UserStakeInfo :=
  { d with
      user := env.userKey
      tokenAccount := env.nftKey
      isStakeActive := false
      initDone := true }

/-- `process_stake` (processor.rs lines 82-118).  `pid` is the program id,
`derive` the runtime's `find_program_address` for this program, `st` the
stake-state account. -/
def processStake (pid : Nat) (derive : Nat → Nat → Nat) (env : Env)
    (st : Account) : Outcome :=
  if env.userIsSigner = false then
    ⟨.fail .missingRequiredSignature st, [.check .signerCheck]⟩
  else if st.owner ≠ pid then
    ⟨.fail .illegalOwner st, [.check .signerCheck, .check .ownerCheck]⟩
  else if derive env.userKey env.nftKey ≠ st.key then
    ⟨.fail .invalidPda st,
      [.check .signerCheck, .check .ownerCheck, .check .pdaCheck]⟩
  else
    match deserializeInfo st.data with
    | none =>
      ⟨.crash st, [.check .signerCheck, .check .ownerCheck, .check .pdaCheck]⟩
    | some d =>
      if d.initDone = false then
        ⟨.fail .uninitAccount st,
          [.check .signerCheck, .check .ownerCheck, .check .pdaCheck,
            .check .initCheck]⟩
      else if d.isStakeActive = true then
        ⟨.fail .invalidArgument st,
          [.check .signerCheck, .check .ownerCheck, .check .pdaCheck,
            .check .initCheck, .check .activeCheck]⟩
      else
        let p := storeRecord (stakeUpd env d) st.data
        if p.1 = true then
          ⟨.ok { st with data := p.2 } none,
            [.check .signerCheck, .check .ownerCheck, .check .pdaCheck,
              .check .initCheck, .check .activeCheck, .writeRec]⟩
        else
          ⟨.fail .borshIoError { st with data := p.2 },
            [.check .signerCheck, .check .ownerCheck, .check .pdaCheck,
              .check .initCheck, .check .activeCheck, .writeRec]⟩

/-- `process_redeem` (processor.rs lines 120-160). -/
def processRedeem (pid : Nat) (derive : Nat → Nat → Nat) (env : Env)
    (st : Account) : Outcome :=
  if env.userIsSigner = false then
    ⟨.fail .missingRequiredSignature st, [.check .signerCheck]⟩
  else if st.owner ≠ pid then
    ⟨.fail .illegalOwner st, [.check .signerCheck, .check .ownerCheck]⟩
  else if derive env.userKey env.nftKey ≠ st.key then
    ⟨.fail .invalidPda st,
      [.check .signerCheck, .check .ownerCheck, .check .pdaCheck]⟩
  else
    match deserializeInfo st.data with
    | none =>
      ⟨.crash st, [.check .signerCheck, .check .ownerCheck, .check .pdaCheck]⟩
    | some d =>
      if d.initDone = false then
        ⟨.fail .uninitAccount st,
          [.check .signerCheck, .check .ownerCheck, .check .pdaCheck,
            .check .initCheck]⟩
      else if d.isStakeActive = false then
        ⟨.fail .invalidArgument st,
          [.check .signerCheck, .check .ownerCheck, .check .pdaCheck,
            .check .initCheck, .check .activeCheck]⟩
      else if d.user ≠ env.userKey then
        ⟨.fail .invalidStakeAccount st,
          [.check .signerCheck, .check .ownerCheck, .check .pdaCheck,
            .check .initCheck, .check .activeCheck, .check .userMatch]⟩
      else if d.tokenAccount ≠ env.nftKey then
        ⟨.fail .invalidTokenAccount st,
          [.check .signerCheck, .check .ownerCheck, .check .pdaCheck,
            .check .initCheck, .check .activeCheck, .check .userMatch,
            .check .tokenMatch]⟩
      else
        let reward := wrapI64 (env.unixTimestamp - d.lastRedeemTime)
        let p := storeRecord (redeemUpd env d) st.data
        if p.1 = true then
          ⟨.ok { st with data := p.2 } (some reward),
            [.check .signerCheck, .check .ownerCheck, .check .pdaCheck,
              .check .initCheck, .check .activeCheck, .check .userMatch,
              .check .tokenMatch, .writeRec]⟩
        else
          ⟨.fail .borshIoError { st with data := p.2 },
            [.check .signerCheck, .check .ownerCheck, .check .pdaCheck,
              .check .initCheck, .check .activeCheck, .check .userMatch,
              .check .tokenMatch, .writeRec]⟩

/-- `process_unstake` (processor.rs lines 162-202). -/
def processUnstake (pid : Nat) (derive : Nat → Nat → Nat) (env : Env)
    (st : Account) : Outcome :=
  if env.userIsSigner = false then
    ⟨.fail .missingRequiredSignature st, [.check .signerCheck]⟩
  else if st.owner ≠ pid then
    ⟨.fail .illegalOwner st, [.check .signerCheck, .check .ownerCheck]⟩
  else if derive env.userKey env.nftKey ≠ st.key then
    ⟨.fail .invalidPda st,
      [.check .signerCheck, .check .ownerCheck, .check .pdaCheck]⟩
  else
    match deserializeInfo st.data with
    | none =>
      ⟨.crash st, [.check .signerCheck, .check .ownerCheck, .check .pdaCheck]⟩
    | some d =>
      if d.initDone = false then
        ⟨.fail .uninitAccount st,
          [.check .signerCheck, .check .ownerCheck, .check .pdaCheck,
            .check .initCheck]⟩
      else if d.isStakeActive = false then
        ⟨.fail .invalidArgument st,
          [.check .signerCheck, .check .ownerCheck, .check .pdaCheck,
            .check .initCheck, .check .activeCheck]⟩
      else if d.user ≠ env.userKey then
        ⟨.fail .invalidStakeAccount st,
          [.check .signerCheck, .check .ownerCheck, .check .pdaCheck,
            .check .initCheck, .check .activeCheck, .check .userMatch]⟩
      else if d.tokenAccount ≠ env.nftKey then
        ⟨.fail .invalidTokenAccount st,
          [.check .signerCheck, .check .ownerCheck, .check .pdaCheck,
            .check .initCheck, .check .activeCheck, .check .userMatch,
            .check .tokenMatch]⟩
      else
        let reward := wrapI64 (env.unixTimestamp - d.lastRedeemTime)
        let p := storeRecord (unstakeUpd env d) st.data
        if p.1 = true then
          ⟨.ok { st with data := p.2 } (some reward),
            [.check .signerCheck, .check .ownerCheck, .check .pdaCheck,
              .check .initCheck, .check .activeCheck, .check .userMatch,
              .check .tokenMatch, .writeRec]⟩
        else
          ⟨.fail .borshIoError { st with data := p.2 },
            [.check .signerCheck, .check .ownerCheck, .check .pdaCheck,
              .check .initCheck, .check .activeCheck, .check .userMatch,
              .check .tokenMatch, .writeRec]⟩

/-- `process_initialize_stake_account` (processor.rs lines 36-80).  The source
performs no explicit signer check; the `invoke_signed(create_account ...)` call
enforces at CPI time that the funding user signed (before the system program
mutates anything) and fails on an account already in use; on success it
allocates `UserStakeInfo::SIZE` zeroed bytes owned by the program and funds
them with the rent-exempt balance.  Only then does the processor deserialize
the (freshly zeroed) data and test `is_initialized`. -/
def processInitStakeAccount (pid : Nat) (derive : Nat → Nat → Nat) (env : Env)
    (st : Account) : Outcome :=
  if derive env.userKey env.nftKey ≠ st.key then
    ⟨.fail .invalidPda st, [.check .pdaCheck]⟩
  else if env.userIsSigner = false then
    ⟨.fail .missingRequiredSignature st, [.check .pdaCheck, .check .signerCheck]⟩
  else if st.lamports ≠ 0 ∨ st.data ≠ [] then
    ⟨.fail .accountAlreadyInUse st, [.check .pdaCheck, .check .signerCheck]⟩
  else
    let st1 : Account :=
      { st with
          owner := pid
          lamports := env.rent
          data := List.replicate UserStakeInfo.SIZE 0 }
    match deserializeInfo st1.data with
    | none => ⟨.crash st1, [.check .pdaCheck, .check .signerCheck, .alloc]⟩
    | some d =>
      if d.initDone = true then
        ⟨.fail .accountAlreadyInit st1,
          [.check .pdaCheck, .check .signerCheck, .alloc, .check .initCheck]⟩
      else
        let p := storeRecord (initUpd env d) st1.data
        if p.1 = true then
          ⟨.ok { st1 with data := p.2 } none,
            [.check .pdaCheck, .check .signerCheck, .alloc, .check .initCheck,
              .writeRec]⟩
        else
          ⟨.fail .borshIoError { st1 with data := p.2 },
            [.check .pdaCheck, .check .signerCheck, .alloc, .check .initCheck,
              .writeRec]⟩

/-- The four operations of `StakeInstruction`, as dispatched by
`process_instruction`. -/
inductive Op where
  | initAccount
  | stake
  | redeem
  | unstake
  deriving DecidableEq, Repr

/-- `process_instruction`'s dispatch on the decoded instruction. -/
def processOp : Op → Nat → (Nat → Nat → Nat) → Env → Account → Outcome
  | .initAccount, pid, dv, env, st => processInitStakeAccount pid dv env st
  | .stake, pid, dv, env, st => processStake pid dv env st
  | .redeem, pid, dv, env, st => processRedeem pid dv env st
  | .unstake, pid, dv, env, st => processUnstake pid dv env st

def Event.isMutEvt : Event → Bool
  | .alloc => true
  | .writeRec => true
  | .check _ => false

def Event.isCheckEvt : Event → Bool
  | .check _ => true
  | _ => false

def Event.isWriteEvt : Event → Bool
  | .writeRec => true
  | _ => false

/-- Once a durable-state mutation has occurred, no validation check follows. -/
def noCheckAfterMut : List Event → Bool
  | [] => true
  | e :: rest =>
    if e.isMutEvt then rest.all (fun x => !x.isCheckEvt)
    else noCheckAfterMut rest

/-- The validation checks that occur at or after the first mutation event. -/
def checksAfterFirstMut (tr : List Event) : List Event :=
  (tr.dropWhile (fun e => !e.isMutEvt)).filter (fun e => e.isCheckEvt)

/-- The record's `lastRedeemTime` as stored in an account (0 when the data
does not hold a record). -/
def lastRedeemOf (a : Account) : Int :=
  ((deserializeInfo a.data).map (fun d => d.lastRedeemTime)).getD 0

/-- The record's `lastRedeemTime` as stored in a byte buffer, if any. -/
def storedLastRedeem (bs : List Nat) : Option Int :=
  (deserializeInfo bs).map (fun d => d.lastRedeemTime)

/-! ### Byte-encoding lemmas -/

theorem toBytesLE_length (n k : Nat) : (toBytesLE n k).length = n := by
  induction n generalizing k with
  | zero => rfl
  | succ n ih => simp [toBytesLE, ih]

theorem toBytesLE_lt (n k : Nat) : ∀ b ∈ toBytesLE n k, b < 256 := by
  induction n generalizing k with
  | zero => intro b hb; simp [toBytesLE] at hb
  | succ n ih =>
    intro b hb
    simp only [toBytesLE, List.mem_cons] at hb
    rcases hb with h | h
    · subst h; exact Nat.mod_lt _ (by norm_num)
    · exact ih _ _ h

theorem fromBytesLE_toBytesLE (n k : Nat) :
    fromBytesLE (toBytesLE n k) = k % 256 ^ n := by
  induction n generalizing k with
  | zero => simp [toBytesLE, fromBytesLE, Nat.mod_one]
  | succ n ih =>
    simp only [toBytesLE, fromBytesLE, ih, pow_succ]
    rw [mul_comm (256 ^ n) 256, Nat.mod_mul]

theorem fromBytesLE_lt (bs : List Nat) (h : ∀ b ∈ bs, b < 256) :
    fromBytesLE bs < 256 ^ bs.length := by
  induction bs with
  | nil => simp [fromBytesLE]
  | cons b bs ih =>
    have hb : b < 256 := h b (by simp)
    have hr : fromBytesLE bs < 256 ^ bs.length :=
      ih (fun x hx => h x (by simp [hx]))
    simp only [fromBytesLE, List.length_cons, pow_succ]
    set q := 256 ^ bs.length
    omega

theorem toBytesLE_fromBytesLE (bs : List Nat) (h : ∀ b ∈ bs, b < 256) :
    toBytesLE bs.length (fromBytesLE bs) = bs := by
  induction bs with
  | nil => rfl
  | cons b bs ih =>
    have hb : b < 256 := h b (by simp)
    simp only [List.length_cons, toBytesLE, fromBytesLE]
    rw [Nat.add_mul_mod_self_left, Nat.mod_eq_of_lt hb,
      Nat.add_mul_div_left _ _ (by norm_num : (0:Nat) < 256),
      Nat.div_eq_of_lt hb, Nat.zero_add,
      ih (fun x hx => h x (by simp [hx]))]

/-! ### i64 encoding lemmas -/

theorem wrapI64_range (i : Int) :
    -(2 ^ 63) ≤ wrapI64 i ∧ wrapI64 i < 2 ^ 63 := by
  simp only [wrapI64]
  have h1 : 0 ≤ i % (2 ^ 64 : Int) := Int.emod_nonneg _ (by norm_num)
  have h2 : i % (2 ^ 64 : Int) < 2 ^ 64 := Int.emod_lt_of_pos _ (by norm_num)
  split <;> constructor <;> omega

theorem wrapI64_eq_self (i : Int) (h1 : -(2 ^ 63) ≤ i) (h2 : i < 2 ^ 63) :
    wrapI64 i = i := by
  simp only [wrapI64]
  omega

theorem wrapI64_emod (i : Int) : wrapI64 (i % (2 ^ 64 : Int)) = wrapI64 i := by
  simp only [wrapI64, Int.emod_emod_of_dvd _ dvd_rfl]

theorem decodeI64_encodeI64 (i : Int) : decodeI64 (encodeI64 i) = wrapI64 i := by
  have h1 : 0 ≤ i % (2 ^ 64 : Int) := Int.emod_nonneg _ (by norm_num)
  have h2 : i % (2 ^ 64 : Int) < 2 ^ 64 := Int.emod_lt_of_pos _ (by norm_num)
  have h3 : (i % (2 ^ 64 : Int)).toNat < 256 ^ 8 := by
    have : (256 : Nat) ^ 8 = 2 ^ 64 := by norm_num
    omega
  simp only [decodeI64, encodeI64, fromBytesLE_toBytesLE,
    Nat.mod_eq_of_lt h3]
  rw [show ((i % (2 ^ 64 : Int)).toNat : Int) = i % (2 ^ 64 : Int) by omega]
  exact wrapI64_emod i

theorem decodeI64_range (bs : List Nat) :
    -(2 ^ 63) ≤ decodeI64 bs ∧ decodeI64 bs < 2 ^ 63 := wrapI64_range _

theorem encodeI64_decodeI64 (bs : List Nat) (hl : bs.length = 8)
    (h : ∀ b ∈ bs, b < 256) : encodeI64 (decodeI64 bs) = bs := by
  have hx : fromBytesLE bs < 2 ^ 64 := by
    have := fromBytesLE_lt bs h
    rw [hl] at this
    have h256 : (256 : Nat) ^ 8 = 2 ^ 64 := by norm_num
    omega
  have hmod : wrapI64 (fromBytesLE bs) % (2 ^ 64 : Int) = (fromBytesLE bs : Int) := by
    simp only [wrapI64]
    have h1 : 0 ≤ (fromBytesLE bs : Int) % (2 ^ 64 : Int) :=
      Int.emod_nonneg _ (by norm_num)
    have h2 : (fromBytesLE bs : Int) % (2 ^ 64 : Int) < 2 ^ 64 :=
      Int.emod_lt_of_pos _ (by norm_num)
    split <;> omega
  simp only [decodeI64, encodeI64, hmod, Int.toNat_natCast]
  rw [← hl, toBytesLE_fromBytesLE bs h]

/-! ### Reader lemmas -/

theorem readByte_some {bs : List Nat} {b : Nat} {r : List Nat}
    (h : readByte bs = some (b, r)) : bs = b :: r := by
  cases bs with
  | nil => simp [readByte] at h
  | cons x xs =>
    simp only [readByte, Option.some.injEq, Prod.mk.injEq] at h
    simp [h.1, h.2]

theorem readN_append (n : Nat) (xs r : List Nat) (h : xs.length = n) :
    readN n (xs ++ r) = some (xs, r) := by
  subst h
  induction xs with
  | nil => rfl
  | cons b bs ih => simp [readN, ih]

theorem readN_toBytes (n k : Nat) (r : List Nat) :
    readN n (toBytesLE n k ++ r) = some (toBytesLE n k, r) :=
  readN_append n _ r (toBytesLE_length n k)

theorem readN_encodeI64 (i : Int) (r : List Nat) :
    readN 8 (encodeI64 i ++ r) = some (encodeI64 i, r) :=
  readN_append 8 _ r (by simp [encodeI64, toBytesLE_length])

theorem readN_some {n : Nat} {bs xs r : List Nat}
    (h : readN n bs = some (xs, r)) : xs.length = n ∧ bs = xs ++ r := by
  induction n generalizing bs xs r with
  | zero =>
    simp only [readN, Option.some.injEq, Prod.mk.injEq] at h
    obtain ⟨h1, h2⟩ := h
    simp [← h1, ← h2]
  | succ n ih =>
    cases bs with
    | nil => simp [readN] at h
    | cons b bs' =>
      simp only [readN] at h
      cases hr : readN n bs' with
      | none => rw [hr] at h; simp at h
      | some pr =>
        rw [hr] at h
        obtain ⟨xs', r'⟩ := pr
        simp only [Option.some.injEq, Prod.mk.injEq] at h
        obtain ⟨h1, h2⟩ := h
        obtain ⟨hl, he⟩ := ih hr
        subst h1 h2
        simp [hl, he]

/-! ### Serialization round trip -/

theorem serializeInfo_length (u : UserStakeInfo) :
    (serializeInfo u).length = 82 := by
  simp [serializeInfo, encodeI64, toBytesLE_length]

theorem parseBool_boolByte (b : Bool) : parseBool (boolByte b) = some b := by
  cases b <;> rfl

/-- The record a serialize-then-deserialize round trip yields: booleans survive
exactly; keys are reduced mod `256 ^ 32` and timestamps to the i64 range, as
the fixed-width byte encodings do. -/
def canonInfo (u : UserStakeInfo) : UserStakeInfo :=
  ⟨u.initDone, u.user % 256 ^ 32, u.tokenAccount % 256 ^ 32,
    wrapI64 u.stakeStartTime, wrapI64 u.lastRedeemTime, u.isStakeActive⟩

theorem deserializeInfo_append (u : UserStakeInfo) (rest : List Nat) :
    deserializeInfo (serializeInfo u ++ rest) = some (canonInfo u) := by
  simp only [serializeInfo, List.cons_append, List.append_assoc]
  simp only [deserializeInfo, readByte, parseBool_boolByte, readN_toBytes,
    readN_encodeI64]
  simp only [fromBytesLE_toBytesLE, decodeI64_encodeI64, canonInfo]

/-- Inversion of a successful deserialization: the exact byte decomposition of
the buffer and the decoded fields. -/
theorem deserializeInfo_inv {bs : List Nat} {d : UserStakeInfo}
    (h : deserializeInfo bs = some d) :
    ∃ b0 us ts ss ls b1 r,
      bs = b0 :: (us ++ (ts ++ (ss ++ (ls ++ b1 :: r)))) ∧
      us.length = 32 ∧ ts.length = 32 ∧ ss.length = 8 ∧ ls.length = 8 ∧
      parseBool b0 = some d.initDone ∧ d.user = fromBytesLE us ∧
      d.tokenAccount = fromBytesLE ts ∧ d.stakeStartTime = decodeI64 ss ∧
      d.lastRedeemTime = decodeI64 ls ∧ parseBool b1 = some d.isStakeActive := by
  unfold deserializeInfo at h
  split at h
  next => simp at h
  next b0 r1 h0 =>
  split at h
  next => simp at h
  next f0 hb0 =>
  split at h
  next => simp at h
  next us r2 h1 =>
  split at h
  next => simp at h
  next ts r3 h2 =>
  split at h
  next => simp at h
  next ss r4 h3 =>
  split at h
  next => simp at h
  next ls r5 h4 =>
  split at h
  next => simp at h
  next b1 r6 h5 =>
  split at h
  next => simp at h
  next f1 hb1 =>
  simp only [Option.some.injEq] at h
  obtain ⟨hl1, he1⟩ := readN_some h1
  obtain ⟨hl2, he2⟩ := readN_some h2
  obtain ⟨hl3, he3⟩ := readN_some h3
  obtain ⟨hl4, he4⟩ := readN_some h4
  refine ⟨b0, us, ts, ss, ls, b1, r6, ?_, hl1, hl2, hl3, hl4, ?_, ?_, ?_, ?_, ?_, ?_⟩
  · rw [readByte_some h0, he1, he2, he3, he4, readByte_some h5]
  · rw [← h, hb0]
  · rw [← h]
  · rw [← h]
  · rw [← h]
  · rw [← h]
  · rw [← h, hb1]

theorem deserializeInfo_some_length {bs : List Nat} {d : UserStakeInfo}
    (h : deserializeInfo bs = some d) : 82 ≤ bs.length := by
  obtain ⟨b0, us, ts, ss, ls, b1, r, hbs, hl1, hl2, hl3, hl4, -⟩ :=
    deserializeInfo_inv h
  subst hbs
  simp [hl1, hl2, hl3, hl4]
  omega

theorem deserializeInfo_wf_bounds {bs : List Nat} {d : UserStakeInfo}
    (hwf : ∀ b ∈ bs, b < 256) (h : deserializeInfo bs = some d) :
    d.user < 256 ^ 32 ∧ d.tokenAccount < 256 ^ 32 := by
  obtain ⟨b0, us, ts, ss, ls, b1, r, hbs, hl1, hl2, hl3, hl4,
    hpb0, hu, ht, hs, hlr, hpb1⟩ := deserializeInfo_inv h
  subst hbs
  have hus : ∀ b ∈ us, b < 256 := fun b hb => hwf b (by simp [hb])
  have hts : ∀ b ∈ ts, b < 256 := fun b hb => hwf b (by simp [hb])
  constructor
  · rw [hu, ← hl1]; exact fromBytesLE_lt us hus
  · rw [ht, ← hl2]; exact fromBytesLE_lt ts hts

theorem storeRecord_of_le (u : UserStakeInfo) (buf : List Nat)
    (h : 82 ≤ buf.length) :
    storeRecord u buf = (true, serializeInfo u ++ buf.drop 82) := by
  simp [storeRecord, serializeInfo_length, h]

/-- Timestamps decoded from 8 bytes always lie in the i64 range. -/
theorem deserializeInfo_time_range {bs : List Nat} {d : UserStakeInfo}
    (h : deserializeInfo bs = some d) :
    (-(2 ^ 63) ≤ d.stakeStartTime ∧ d.stakeStartTime < 2 ^ 63) ∧
    (-(2 ^ 63) ≤ d.lastRedeemTime ∧ d.lastRedeemTime < 2 ^ 63) := by
  obtain ⟨b0, us, ts, ss, ls, b1, r, hbs, hl1, hl2, hl3, hl4,
    hpb0, hu, ht, hs, hlr, hpb1⟩ := deserializeInfo_inv h
  rw [hs, hlr]
  exact ⟨decodeI64_range ss, decodeI64_range ls⟩

/-- The record deserialized from freshly zeroed account data. -/
def zeroRec : UserStakeInfo := ⟨false, 0, 0, 0, 0, false⟩

theorem deserialize_zeroData :
    deserializeInfo (List.replicate UserStakeInfo.SIZE 0) = some zeroRec := by
  decide

/-! ### Success inversion of the four operations -/

theorem processStake_ok {pid : Nat} {dv : Nat → Nat → Nat} {env : Env}
    {st a' : Account} {r : Option Int}
    (h : (processStake pid dv env st).res = .ok a' r) :
    ∃ d, deserializeInfo st.data = some d ∧ d.initDone = true ∧
      d.isStakeActive = false ∧ env.userIsSigner = true ∧ st.owner = pid ∧
      dv env.userKey env.nftKey = st.key ∧ r = none ∧
      a' = { st with data := serializeInfo (stakeUpd env d) ++ st.data.drop 82 } := by
  unfold processStake at h
  split_ifs at h with h1 h2 h3
  split at h
  next => simp at h
  next d hde =>
    split_ifs at h with h4 h5
    simp only [storeRecord_of_le _ _ (deserializeInfo_some_length hde)] at h
    simp at h
    exact ⟨d, hde, by simpa using h4, by simpa using h5, by simpa using h1,
      by simpa using h2, by simpa using h3, h.2.symm, h.1.symm⟩

theorem processRedeem_ok {pid : Nat} {dv : Nat → Nat → Nat} {env : Env}
    {st a' : Account} {r : Option Int}
    (h : (processRedeem pid dv env st).res = .ok a' r) :
    ∃ d, deserializeInfo st.data = some d ∧ d.initDone = true ∧
      d.isStakeActive = true ∧ d.user = env.userKey ∧
      d.tokenAccount = env.nftKey ∧ env.userIsSigner = true ∧ st.owner = pid ∧
      dv env.userKey env.nftKey = st.key ∧
      r = some (wrapI64 (env.unixTimestamp - d.lastRedeemTime)) ∧
      a' = { st with data := serializeInfo (redeemUpd env d) ++ st.data.drop 82 } := by
  unfold processRedeem at h
  split_ifs at h with h1 h2 h3
  split at h
  next => simp at h
  next d hde =>
    split_ifs at h with h4 h5 h6 h7
    simp only [storeRecord_of_le _ _ (deserializeInfo_some_length hde)] at h
    simp at h
    exact ⟨d, hde, by simpa using h4, by simpa using h5, by simpa using h6,
      by simpa using h7, by simpa using h1, by simpa using h2,
      by simpa using h3, h.2.symm, h.1.symm⟩

theorem processUnstake_ok {pid : Nat} {dv : Nat → Nat → Nat} {env : Env}
    {st a' : Account} {r : Option Int}
    (h : (processUnstake pid dv env st).res = .ok a' r) :
    ∃ d, deserializeInfo st.data = some d ∧ d.initDone = true ∧
      d.isStakeActive = true ∧ d.user = env.userKey ∧
      d.tokenAccount = env.nftKey ∧ env.userIsSigner = true ∧ st.owner = pid ∧
      dv env.userKey env.nftKey = st.key ∧
      r = some (wrapI64 (env.unixTimestamp - d.lastRedeemTime)) ∧
      a' = { st with data := serializeInfo (unstakeUpd env d) ++ st.data.drop 82 } := by
  unfold processUnstake at h
  split_ifs at h with h1 h2 h3
  split at h
  next => simp at h
  next d hde =>
    split_ifs at h with h4 h5 h6 h7
    simp only [storeRecord_of_le _ _ (deserializeInfo_some_length hde)] at h
    simp at h
    exact ⟨d, hde, by simpa using h4, by simpa using h5, by simpa using h6,
      by simpa using h7, by simpa using h1, by simpa using h2,
      by simpa using h3, h.2.symm, h.1.symm⟩

set_option maxRecDepth 4000 in
theorem processInit_ok {pid : Nat} {dv : Nat → Nat → Nat} {env : Env}
    {st a' : Account} {r : Option Int}
    (h : (processInitStakeAccount pid dv env st).res = .ok a' r) :
    dv env.userKey env.nftKey = st.key ∧ env.userIsSigner = true ∧
      st.lamports = 0 ∧ st.data = [] ∧ r = none ∧
      a' = { st with
              owner := pid
              lamports := env.rent
              data := serializeInfo (initUpd env zeroRec) ++
                List.replicate 112 0 } := by
  unfold processInitStakeAccount at h
  split_ifs at h with h1 h2 h3
  simp only [deserialize_zeroData] at h
  rw [storeRecord_of_le _ _
    (by simp [UserStakeInfo.SIZE] :
      82 ≤ (List.replicate UserStakeInfo.SIZE 0).length)] at h
  simp only [zeroRec] at h
  simp at h
  norm_num [UserStakeInfo.SIZE] at h
  push_neg at h3
  refine ⟨by simpa using h1, by simpa using h2, h3.1, h3.2, h.2.symm, ?_⟩
  rw [← h.1]
  simp [zeroRec]

/-! ### Reachability of record states -/

/-- Account states reachable from uninitialized storage (no lamports, no data,
system-owned) by successful operations of this program, for a fixed program id
and address-derivation function. -/
inductive Reachable (pid : Nat) (dv : Nat → Nat → Nat) : Account → Prop
  | base (key : Nat) : Reachable pid dv ⟨key, 0, 0, []⟩
  | step (a a' : Account) (op : Op) (env : Env) (r : Option Int)
      (ha : Reachable pid dv a)
      (hs : (processOp op pid dv env a).res = .ok a' r) :
      Reachable pid dv a'

/-- Every record ever stored by a reachable state has `is_initialized` set. -/
theorem reachable_initDone {pid : Nat} {dv : Nat → Nat → Nat} {a : Account}
    (h : Reachable pid dv a) :
    ∀ d, deserializeInfo a.data = some d → d.initDone = true := by
  induction h with
  | base key => intro d hd; simp [deserializeInfo, readByte] at hd
  | step a a' op env r ha hs ih =>
    intro d hd
    cases op with
    | initAccount =>
      obtain ⟨-, -, -, -, -, ha'⟩ := processInit_ok hs
      subst ha'
      simp only [deserializeInfo_append, Option.some.injEq] at hd
      rw [← hd]
      simp [canonInfo, initUpd]
    | stake =>
      obtain ⟨d0, hde, hinit, -, -, -, -, -, ha'⟩ := processStake_ok hs
      subst ha'
      simp only [deserializeInfo_append, Option.some.injEq] at hd
      rw [← hd]
      simp [canonInfo, stakeUpd, hinit]
    | redeem =>
      obtain ⟨d0, hde, hinit, -, -, -, -, -, -, -, ha'⟩ := processRedeem_ok hs
      subst ha'
      simp only [deserializeInfo_append, Option.some.injEq] at hd
      rw [← hd]
      simp [canonInfo, redeemUpd, hinit]
    | unstake =>
      obtain ⟨d0, hde, hinit, -, -, -, -, -, -, -, ha'⟩ := processUnstake_ok hs
      subst ha'
      simp only [deserializeInfo_append, Option.some.injEq] at hd
      rw [← hd]
      simp [canonInfo, unstakeUpd, hinit]

/-- Reachability with a clock watermark: the index is the latest clock reading
used, clock readings are nonnegative i64 values and non-decreasing across
invocations. -/
inductive ReachTimed (pid : Nat) (dv : Nat → Nat → Nat) : Int → Account → Prop
  | base (key : Nat) (c : Int) (hc : 0 ≤ c) : ReachTimed pid dv c ⟨key, 0, 0, []⟩
  | step (c : Int) (a a' : Account) (op : Op) (env : Env) (r : Option Int)
      (ha : ReachTimed pid dv c a)
      (hmono : c ≤ env.unixTimestamp)
      (hup : env.unixTimestamp < 2 ^ 63)
      (hs : (processOp op pid dv env a).res = .ok a' r) :
      ReachTimed pid dv env.unixTimestamp a'

theorem reachTimed_nonneg {pid : Nat} {dv : Nat → Nat → Nat} {c : Int}
    {a : Account} (h : ReachTimed pid dv c a) : 0 ≤ c := by
  induction h with
  | base key c hc => exact hc
  | step c a a' op env r ha hmono hup hs ih => exact le_trans ih hmono

/-- Invariant: the stored `lastRedeemTime` of a timed-reachable state is
nonnegative and bounded by the clock watermark. -/
theorem reachTimed_lastRedeem {pid : Nat} {dv : Nat → Nat → Nat} {c : Int}
    {a : Account} (h : ReachTimed pid dv c a) :
    ∀ d, deserializeInfo a.data = some d →
      0 ≤ d.lastRedeemTime ∧ d.lastRedeemTime ≤ c := by
  induction h with
  | base key c hc => intro d hd; simp [deserializeInfo, readByte] at hd
  | step c a a' op env r ha hmono hup hs ih =>
    intro d hd
    have hc0 : (0 : Int) ≤ c := reachTimed_nonneg ha
    cases op with
    | initAccount =>
      obtain ⟨-, -, -, -, -, ha'⟩ := processInit_ok hs
      subst ha'
      simp only [deserializeInfo_append, Option.some.injEq] at hd
      rw [← hd]
      simp only [canonInfo, initUpd, zeroRec]
      rw [wrapI64_eq_self 0 (by norm_num) (by norm_num)]
      omega
    | stake =>
      obtain ⟨d0, hde, -, -, -, -, -, -, ha'⟩ := processStake_ok hs
      subst ha'
      simp only [deserializeInfo_append, Option.some.injEq] at hd
      rw [← hd]
      simp only [canonInfo, stakeUpd]
      rw [wrapI64_eq_self env.unixTimestamp (by omega) hup]
      omega
    | redeem =>
      obtain ⟨d0, hde, -, -, -, -, -, -, -, -, ha'⟩ := processRedeem_ok hs
      subst ha'
      simp only [deserializeInfo_append, Option.some.injEq] at hd
      rw [← hd]
      simp only [canonInfo, redeemUpd]
      rw [wrapI64_eq_self env.unixTimestamp (by omega) hup]
      omega
    | unstake =>
      obtain ⟨d0, hde, -, -, -, -, -, -, -, -, ha'⟩ := processUnstake_ok hs
      subst ha'
      simp only [deserializeInfo_append, Option.some.injEq] at hd
      rw [← hd]
      simp only [canonInfo, unstakeUpd]
      rw [wrapI64_eq_self env.unixTimestamp (by omega) hup]
      omega

/-! ### Concrete fixtures for witnesses and counterexamples -/

/-- A concrete stand-in for the runtime's address derivation. -/
def dv0 : Nat → Nat → Nat := fun u n => 100000 + u + n

/-- Scenario-B environment: user 5, NFT holding 6, signed, clock 1000. -/
def envB : Env := ⟨5, true, 6, 1000, 42⟩

/-- Scenario-C environment: same accounts, clock 1100. -/
def envC : Env := ⟨5, true, 6, 1100, 42⟩

/-- Same accounts, signed, negative clock reading. -/
def envNeg : Env := ⟨5, true, 6, -5, 42⟩

/-- Same accounts, user did not sign. -/
def envUnsigned : Env := ⟨5, false, 6, 1000, 42⟩

/-- Uninitialized storage at the derived address for (5, 6). -/
def freshAcct : Account := ⟨dv0 5 6, 0, 0, []⟩

/-- Storage at a key different from the derived address for (5, 6). -/
def badKeyAcct : Account := ⟨dv0 5 6 + 1, 0, 0, []⟩

/-- The record right after a successful initialization for (5, 6). -/
def initRec : UserStakeInfo := ⟨true, 5, 6, 0, 0, false⟩

/-- The account right after a successful initialization for (5, 6). -/
def initedAcct : Account :=
  ⟨dv0 5 6, 7, 42, serializeInfo initRec ++ List.replicate 112 0⟩

/-- The record after staking at clock 1000. -/
def stakedRec : UserStakeInfo := ⟨true, 5, 6, 1000, 1000, true⟩

/-- The account after staking at clock 1000. -/
def stakedAcct : Account :=
  ⟨dv0 5 6, 7, 42, serializeInfo stakedRec ++ List.replicate 112 0⟩

/-- A program-owned account whose stored record is Active with
`lastRedeemTime = -2^63` (bytes `[0,...,0,128]` little-endian). -/
def overflowData : List Nat :=
  1 :: (List.replicate 64 0 ++ List.replicate 8 0 ++
    [0, 0, 0, 0, 0, 0, 0, 128] ++ [1])

def overflowAcct : Account := ⟨dv0 0 0, 7, 42, overflowData⟩

/-- User 0, NFT 0, signed, clock at the maximum i64 value. -/
def envMax : Env := ⟨0, true, 0, 2 ^ 63 - 1, 42⟩

/-- The record after redeeming at clock 1100 on `stakedAcct`. -/
def redeemedRec : UserStakeInfo := ⟨true, 5, 6, 1000, 1100, true⟩

/-- The account after redeeming at clock 1100 on `stakedAcct`. -/
def redeemedAcct : Account :=
  ⟨dv0 5 6, 7, 42, serializeInfo redeemedRec ++ List.replicate 112 0⟩

set_option maxRecDepth 40000

/-! ### The claims -/

/-- Claim C9: the reserved size for the record's storage
(`UserStakeInfo::SIZE = 1 + 32 + 32 + 64 + 64 + 1 = 194`) is at least the true
encoded size of the record's fields (`1 + 32 + 32 + 8 + 8 + 1 = 82`), each of
the two timestamp fields being reserved at 64 units although its encoding is
8 bytes wide. -/
theorem c9_reserved_size_ge_encoded :
    UserStakeInfo.SIZE = 1 + 32 + 32 + 64 + 64 + 1 ∧
    UserStakeInfo.SIZE = 194 ∧
    (∀ u : UserStakeInfo, (serializeInfo u).length = 1 + 32 + 32 + 8 + 8 + 1) ∧
    (∀ i : Int, (encodeI64 i).length = 8) ∧
    1 + 32 + 32 + 8 + 8 + 1 = 82 ∧
    82 ≤ UserStakeInfo.SIZE := by
  refine ⟨rfl, rfl, fun u => ?_, fun i => ?_, rfl,
    by norm_num [UserStakeInfo.SIZE]⟩
  · rw [serializeInfo_length]
  · simp [encodeI64, toBytesLE_length]

/-- Claim C10: for stake, redeem and unstake, when the signer, ownership and
derivation checks pass but the account's bytes do not deserialize as a
`UserStakeInfo`, the processor panics (the `.unwrap()` on
`try_from_slice_unchecked`) instead of returning an error. -/
theorem c10_bad_bytes_crash (op : Op) (pid : Nat) (dv : Nat → Nat → Nat)
    (env : Env) (st : Account)
    (hop : op = .stake ∨ op = .redeem ∨ op = .unstake)
    (hsig : env.userIsSigner = true)
    (hown : st.owner = pid)
    (hpda : dv env.userKey env.nftKey = st.key)
    (hbad : deserializeInfo st.data = none) :
    (processOp op pid dv env st).res = .crash st := by
  rcases hop with h | h | h <;> subst h <;>
    simp [processOp, processStake, processRedeem, processUnstake,
      hsig, hown, hpda, hbad]

/-- Witness for C10: a concrete stake call on a program-owned account with
empty data panics. -/
theorem c10_witness :
    (processOp .stake 7 dv0 envB ⟨dv0 5 6, 7, 0, []⟩).res =
      .crash ⟨dv0 5 6, 7, 0, []⟩ :=
  c10_bad_bytes_crash .stake 7 dv0 envB ⟨dv0 5 6, 7, 0, []⟩ (Or.inl rfl)
    (by decide) (by decide) (by decide) (by decide)

/-- Claim C3: staking an already-active record, with the signer, ownership,
derivation and initialization checks passing, fails and leaves the record
unchanged.  The code returns `ProgramError::InvalidArgument` here, which is
the error the spec's taxonomy names `AlreadyActive`. -/
theorem c3_stake_on_active_fails (pid : Nat) (dv : Nat → Nat → Nat)
    (env : Env) (st : Account) (d : UserStakeInfo)
    (hsig : env.userIsSigner = true)
    (hown : st.owner = pid)
    (hpda : dv env.userKey env.nftKey = st.key)
    (hde : deserializeInfo st.data = some d)
    (hinit : d.initDone = true)
    (hact : d.isStakeActive = true) :
    (processOp .stake pid dv env st).res = .fail .invalidArgument st := by
  simp [processOp, processStake, hsig, hown, hpda, hde, hinit, hact]

/-- Witness for C3: staking the concrete active account fails with
`InvalidArgument` and returns the account untouched. -/
theorem c3_witness :
    (processOp .stake 7 dv0 envB stakedAcct).res =
      .fail .invalidArgument stakedAcct :=
  c3_stake_on_active_fails 7 dv0 envB stakedAcct stakedRec (by decide)
    (by decide) (by decide) (by decide) (by decide) (by decide)

set_option maxHeartbeats 800000 in
theorem c1InitAux (pid : Nat) (dv : Nat → Nat → Nat) (env : Env) (st : Account) :
    ((processInitStakeAccount pid dv env st).res.isFail = true →
      (processInitStakeAccount pid dv env st).res.account.data = st.data ∧
      ((processInitStakeAccount pid dv env st).trace.all
        fun e => !e.isWriteEvt) = true) ∧
    ((processInitStakeAccount pid dv env st).res.isOk = true →
      ((processInitStakeAccount pid dv env st).trace.filter
        fun e => e.isWriteEvt) = [Event.writeRec] ∧
      (processInitStakeAccount pid dv env st).trace.getLast? =
        some Event.writeRec) := by
  unfold processInitStakeAccount
  split_ifs with h1 h2 h3
  · simp [StepResult.isFail, StepResult.isOk, StepResult.account,
      Event.isWriteEvt, List.all]
  · simp [StepResult.isFail, StepResult.isOk, StepResult.account,
      Event.isWriteEvt, List.all]
  · simp [StepResult.isFail, StepResult.isOk, StepResult.account,
      Event.isWriteEvt, List.all]
  · simp only [deserialize_zeroData]
    rw [storeRecord_of_le _ _
      (by simp [UserStakeInfo.SIZE] :
        82 ≤ (List.replicate UserStakeInfo.SIZE 0).length)]
    simp [StepResult.isFail, StepResult.isOk, StepResult.account,
      Event.isWriteEvt, List.all, zeroRec]

set_option maxHeartbeats 800000 in
theorem c1StakeAux (pid : Nat) (dv : Nat → Nat → Nat) (env : Env) (st : Account) :
    ((processStake pid dv env st).res.isFail = true →
      (processStake pid dv env st).res.account.data = st.data ∧
      ((processStake pid dv env st).trace.all fun e => !e.isWriteEvt) = true) ∧
    ((processStake pid dv env st).res.isOk = true →
      ((processStake pid dv env st).trace.filter fun e => e.isWriteEvt) =
        [Event.writeRec] ∧
      (processStake pid dv env st).trace.getLast? = some Event.writeRec) := by
  unfold processStake
  split_ifs with h1 h2 h3
  · simp [StepResult.isFail, StepResult.isOk, StepResult.account,
      Event.isWriteEvt, List.all]
  · simp [StepResult.isFail, StepResult.isOk, StepResult.account,
      Event.isWriteEvt, List.all]
  · simp [StepResult.isFail, StepResult.isOk, StepResult.account,
      Event.isWriteEvt, List.all]
  · cases hde : deserializeInfo st.data with
    | none => simp [StepResult.isFail, StepResult.isOk]
    | some d =>
      dsimp only
      split_ifs with h4 h5 h6
      · simp [StepResult.isFail, StepResult.isOk, StepResult.account,
          Event.isWriteEvt, List.all]
      · simp [StepResult.isFail, StepResult.isOk, StepResult.account,
          Event.isWriteEvt, List.all]
      · simp [StepResult.isFail, StepResult.isOk, StepResult.account,
          Event.isWriteEvt, List.all]
      · exact absurd (by rw [storeRecord_of_le _ _
          (deserializeInfo_some_length hde)]) h6

set_option maxHeartbeats 800000 in
theorem c1RedeemAux (pid : Nat) (dv : Nat → Nat → Nat) (env : Env) (st : Account) :
    ((processRedeem pid dv env st).res.isFail = true →
      (processRedeem pid dv env st).res.account.data = st.data ∧
      ((processRedeem pid dv env st).trace.all fun e => !e.isWriteEvt) = true) ∧
    ((processRedeem pid dv env st).res.isOk = true →
      ((processRedeem pid dv env st).trace.filter fun e => e.isWriteEvt) =
        [Event.writeRec] ∧
      (processRedeem pid dv env st).trace.getLast? = some Event.writeRec) := by
  unfold processRedeem
  split_ifs with h1 h2 h3
  · simp [StepResult.isFail, StepResult.isOk, StepResult.account,
      Event.isWriteEvt, List.all]
  · simp [StepResult.isFail, StepResult.isOk, StepResult.account,
      Event.isWriteEvt, List.all]
  · simp [StepResult.isFail, StepResult.isOk, StepResult.account,
      Event.isWriteEvt, List.all]
  · cases hde : deserializeInfo st.data with
    | none => simp [StepResult.isFail, StepResult.isOk]
    | some d =>
      dsimp only
      split_ifs with h4 h5 h6 h7 h8
      · simp [StepResult.isFail, StepResult.isOk, StepResult.account,
          Event.isWriteEvt, List.all]
      · simp [StepResult.isFail, StepResult.isOk, StepResult.account,
          Event.isWriteEvt, List.all]
      · simp [StepResult.isFail, StepResult.isOk, StepResult.account,
          Event.isWriteEvt, List.all]
      · simp [StepResult.isFail, StepResult.isOk, StepResult.account,
          Event.isWriteEvt, List.all]
      · simp [StepResult.isFail, StepResult.isOk, StepResult.account,
          Event.isWriteEvt, List.all]
      · exact absurd (by rw [storeRecord_of_le _ _
          (deserializeInfo_some_length hde)]) h8

set_option maxHeartbeats 800000 in
theorem c1UnstakeAux (pid : Nat) (dv : Nat → Nat → Nat) (env : Env) (st : Account) :
    ((processUnstake pid dv env st).res.isFail = true →
      (processUnstake pid dv env st).res.account.data = st.data ∧
      ((processUnstake pid dv env st).trace.all fun e => !e.isWriteEvt) = true) ∧
    ((processUnstake pid dv env st).res.isOk = true →
      ((processUnstake pid dv env st).trace.filter fun e => e.isWriteEvt) =
        [Event.writeRec] ∧
      (processUnstake pid dv env st).trace.getLast? = some Event.writeRec) := by
  unfold processUnstake
  split_ifs with h1 h2 h3
  · simp [StepResult.isFail, StepResult.isOk, StepResult.account,
      Event.isWriteEvt, List.all]
  · simp [StepResult.isFail, StepResult.isOk, StepResult.account,
      Event.isWriteEvt, List.all]
  · simp [StepResult.isFail, StepResult.isOk, StepResult.account,
      Event.isWriteEvt, List.all]
  · cases hde : deserializeInfo st.data with
    | none => simp [StepResult.isFail, StepResult.isOk]
    | some d =>
      dsimp only
      split_ifs with h4 h5 h6 h7 h8
      · simp [StepResult.isFail, StepResult.isOk, StepResult.account,
          Event.isWriteEvt, List.all]
      · simp [StepResult.isFail, StepResult.isOk, StepResult.account,
          Event.isWriteEvt, List.all]
      · simp [StepResult.isFail, StepResult.isOk, StepResult.account,
          Event.isWriteEvt, List.all]
      · simp [StepResult.isFail, StepResult.isOk, StepResult.account,
          Event.isWriteEvt, List.all]
      · simp [StepResult.isFail, StepResult.isOk, StepResult.account,
          Event.isWriteEvt, List.all]
      · exact absurd (by rw [storeRecord_of_le _ _
          (deserializeInfo_some_length hde)]) h8

/-- Claim C1: for every operation and input state, an error return leaves the
record's stored bytes byte-for-byte unchanged (and the run performed no record
write), while a successful run performs exactly one record write and it is the
final durable-state event of the run. -/
theorem c1_atomic_commit (op : Op) (pid : Nat) (dv : Nat → Nat → Nat)
    (env : Env) (st : Account) :
    ((processOp op pid dv env st).res.isFail = true →
      (processOp op pid dv env st).res.account.data = st.data ∧
      ((processOp op pid dv env st).trace.all fun e => !e.isWriteEvt) = true) ∧
    ((processOp op pid dv env st).res.isOk = true →
      ((processOp op pid dv env st).trace.filter fun e => e.isWriteEvt) =
        [Event.writeRec] ∧
      (processOp op pid dv env st).trace.getLast? = some Event.writeRec) := by
  cases op with
  | initAccount => exact c1InitAux pid dv env st
  | stake => exact c1StakeAux pid dv env st
  | redeem => exact c1RedeemAux pid dv env st
  | unstake => exact c1UnstakeAux pid dv env st

/-- Witness for C1: an unsigned stake fails and leaves the bytes unchanged;
a successful redeem performs exactly one record write. -/
theorem c1_witness :
    (processOp .stake 7 dv0 envUnsigned stakedAcct).res.account.data =
      stakedAcct.data ∧
    ((processOp .redeem 7 dv0 envC stakedAcct).trace.filter
      fun e => e.isWriteEvt) = [Event.writeRec] :=
  ⟨((c1_atomic_commit .stake 7 dv0 envUnsigned stakedAcct).1 (by decide)).1,
   ((c1_atomic_commit .redeem 7 dv0 envC stakedAcct).2 (by decide)).1⟩

/-- Counterexample for C2 as stated: a validator-passing Active record with
stored `lastRedeemTime = -2^63` redeemed at clock `2^63 - 1` (clock is
monotone: the stored time is ≤ now).  The i64 subtraction wraps: the reported
reward is `-1`, not `now - lastRedeemTime = 2^64 - 1`, and it is negative. -/
theorem c2_counterexample :
    (processOp .redeem 7 dv0 envMax overflowAcct).res.isOk = true ∧
    storedLastRedeem overflowAcct.data = some (-(2 ^ 63)) ∧
    (-(2 ^ 63) : Int) ≤ envMax.unixTimestamp ∧
    (processOp .redeem 7 dv0 envMax overflowAcct).res.rewardOf = some (-1) ∧
    envMax.unixTimestamp - (-(2 ^ 63) : Int) = 2 ^ 64 - 1 ∧
    ¬((-1 : Int) = 2 ^ 64 - 1) ∧
    ¬((0 : Int) ≤ -1) := by
  decide

/-- Claim C2, amended: on a successful redeem or unstake the reported reward
is `now - lastRedeemTime(before)` reduced to the signed 64-bit range; provided
the clock is monotone (`lastRedeemTime ≤ now`) and the elapsed difference fits
in an i64 (`now - lastRedeemTime < 2^63`), the reward equals
`now - lastRedeemTime`, is ≥ 0, and the stored `lastRedeemTime` becomes
`now`. -/
theorem c2_reward_amended (op : Op) (pid : Nat) (dv : Nat → Nat → Nat)
    (env : Env) (st a' : Account) (r : Option Int) (d : UserStakeInfo)
    (hop : op = .redeem ∨ op = .unstake)
    (hde : deserializeInfo st.data = some d)
    (hs : (processOp op pid dv env st).res = .ok a' r)
    (hmono : d.lastRedeemTime ≤ env.unixTimestamp)
    (hfit : env.unixTimestamp - d.lastRedeemTime < 2 ^ 63)
    (hup : env.unixTimestamp < 2 ^ 63) :
    r = some (env.unixTimestamp - d.lastRedeemTime) ∧
    0 ≤ env.unixTimestamp - d.lastRedeemTime ∧
    storedLastRedeem a'.data = some env.unixTimestamp := by
  have hlow : -(2 ^ 63) ≤ d.lastRedeemTime :=
    (deserializeInfo_time_range hde).2.1
  rcases hop with h | h <;> subst h
  · obtain ⟨d0, hde0, -, -, -, -, -, -, -, hr, ha'⟩ := processRedeem_ok hs
    obtain rfl : d0 = d := Option.some.inj (hde0.symm.trans hde)
    subst ha'
    refine ⟨?_, by omega, ?_⟩
    · rw [hr, wrapI64_eq_self _ (by omega) (by omega)]
    · simp only [storedLastRedeem, deserializeInfo_append, Option.map_some,
        canonInfo, redeemUpd]
      rw [wrapI64_eq_self _ (by omega) hup]
      simp
  · obtain ⟨d0, hde0, -, -, -, -, -, -, -, hr, ha'⟩ := processUnstake_ok hs
    obtain rfl : d0 = d := Option.some.inj (hde0.symm.trans hde)
    subst ha'
    refine ⟨?_, by omega, ?_⟩
    · rw [hr, wrapI64_eq_self _ (by omega) (by omega)]
    · simp only [storedLastRedeem, deserializeInfo_append, Option.map_some,
        canonInfo, unstakeUpd]
      rw [wrapI64_eq_self _ (by omega) hup]
      simp

/-- Witness for C2 (amended): redeeming the concrete staked account at clock
1100 reports reward 100 and stores `lastRedeemTime = 1100`. -/
theorem c2_witness :
    (some 100 : Option Int) =
      some (envC.unixTimestamp - stakedRec.lastRedeemTime) ∧
    0 ≤ envC.unixTimestamp - stakedRec.lastRedeemTime ∧
    storedLastRedeem redeemedAcct.data = some envC.unixTimestamp := by
  have h := c2_reward_amended .redeem 7 dv0 envC stakedAcct redeemedAcct
    (some 100) stakedRec (Or.inl rfl) (by decide) (by decide) (by decide)
    (by decide) (by decide)
  exact ⟨h.1 ▸ rfl, h.2.1, h.2.2⟩

/-- Counterexample for C4 as stated: an unsigned initialize whose record
address does not match the derivation fails with `InvalidPda`, not
`MissingSignature` — the source's initialize has no explicit signer check. -/
theorem c4_counterexample :
    envUnsigned.userIsSigner = false ∧
    (processOp .initAccount 7 dv0 envUnsigned badKeyAcct).res.errorOf =
      some ProgErr.invalidPda ∧
    some ProgErr.invalidPda ≠ some ProgErr.missingRequiredSignature := by
  decide

/-- Claim C4, amended: stake, redeem and unstake each check the signer first,
so an unsigned call fails with `MissingSignature` before anything else and
leaves the account untouched.  Initialize performs no explicit signer check;
its signature requirement is enforced by the runtime's account-creation call
after the derivation check, so an unsigned initialize always fails without
any durable mutation, with `MissingSignature` whenever the derivation check
passes (and with `InvalidPda` otherwise). -/
theorem c4_missing_signature_amended (op : Op) (pid : Nat)
    (dv : Nat → Nat → Nat) (env : Env) (st : Account)
    (hns : env.userIsSigner = false) :
    (op ≠ .initAccount →
      (processOp op pid dv env st).res = .fail .missingRequiredSignature st ∧
      (processOp op pid dv env st).trace = [Event.check .signerCheck]) ∧
    (op = .initAccount →
      (processOp op pid dv env st).res.isFail = true ∧
      (processOp op pid dv env st).res.account = st ∧
      ((processOp op pid dv env st).trace.all fun e => !e.isMutEvt) = true ∧
      (dv env.userKey env.nftKey = st.key →
        (processOp op pid dv env st).res =
          .fail .missingRequiredSignature st)) := by
  cases op with
  | initAccount =>
    refine ⟨fun hne => absurd rfl hne, fun _ => ?_⟩
    simp only [processOp]
    unfold processInitStakeAccount
    split_ifs with h1
    · exact ⟨rfl, rfl, by simp [Event.isMutEvt], fun hk => absurd hk h1⟩
    · exact ⟨rfl, rfl, by simp [Event.isMutEvt], fun _ => rfl⟩
  | stake =>
    refine ⟨fun _ => ?_, fun he => nomatch he⟩
    simp only [processOp]
    unfold processStake
    rw [if_pos hns]
    exact ⟨rfl, rfl⟩
  | redeem =>
    refine ⟨fun _ => ?_, fun he => nomatch he⟩
    simp only [processOp]
    unfold processRedeem
    rw [if_pos hns]
    exact ⟨rfl, rfl⟩
  | unstake =>
    refine ⟨fun _ => ?_, fun he => nomatch he⟩
    simp only [processOp]
    unfold processUnstake
    rw [if_pos hns]
    exact ⟨rfl, rfl⟩

/-- Witness for C4 (amended): an unsigned stake fails with
`MissingSignature`, and so does an unsigned initialize at the correctly
derived address. -/
theorem c4_witness :
    (processOp .stake 7 dv0 envUnsigned stakedAcct).res =
      .fail .missingRequiredSignature stakedAcct ∧
    (processOp .initAccount 7 dv0 envUnsigned freshAcct).res =
      .fail .missingRequiredSignature freshAcct :=
  ⟨((c4_missing_signature_amended .stake 7 dv0 envUnsigned stakedAcct
      (by decide)).1 (by decide)).1,
   ((c4_missing_signature_amended .initAccount 7 dv0 envUnsigned freshAcct
      (by decide)).2 rfl).2.2.2 (by decide)⟩

/-- Counterexample for C5 as stated: a successful initialize allocates and
funds the record's storage (the `invoke_signed(create_account ...)` call)
before the not-yet-initialized state check runs, so its event trace has a
validation check after a durable mutation. -/
theorem c5_counterexample :
    (processOp .initAccount 7 dv0 envB freshAcct).res.isOk = true ∧
    noCheckAfterMut (processOp .initAccount 7 dv0 envB freshAcct).trace =
      false := by
  decide

set_option maxHeartbeats 1600000 in
/-- Claim C5, amended: stake, redeem and unstake complete all validation
checks before any durable mutation.  Initialize performs its derivation (and
the runtime its signer) check before allocating, but its
initialization-state check runs only after the allocation; the only check
that can follow a mutation is that state check. -/
theorem c5_validate_before_mutate_amended (op : Op) (pid : Nat)
    (dv : Nat → Nat → Nat) (env : Env) (st : Account) :
    (op ≠ .initAccount →
      noCheckAfterMut (processOp op pid dv env st).trace = true) ∧
    (op = .initAccount →
      (processOp op pid dv env st).trace.head? =
        some (Event.check .pdaCheck) ∧
      (checksAfterFirstMut (processOp op pid dv env st).trace = [] ∨
        checksAfterFirstMut (processOp op pid dv env st).trace =
          [Event.check .initCheck])) := by
  cases op with
  | initAccount =>
    refine ⟨fun hne => absurd rfl hne, fun _ => ?_⟩
    simp only [processOp]
    unfold processInitStakeAccount
    split_ifs with h1 h2 h3
    · exact ⟨rfl, by simp [checksAfterFirstMut, Event.isMutEvt,
        Event.isCheckEvt]⟩
    · exact ⟨rfl, by simp [checksAfterFirstMut, Event.isMutEvt,
        Event.isCheckEvt]⟩
    · exact ⟨rfl, by simp [checksAfterFirstMut, Event.isMutEvt,
        Event.isCheckEvt]⟩
    · simp only [deserialize_zeroData]
      rw [storeRecord_of_le _ _
        (by simp [UserStakeInfo.SIZE] :
          82 ≤ (List.replicate UserStakeInfo.SIZE 0).length)]
      simp [zeroRec, checksAfterFirstMut, Event.isMutEvt, Event.isCheckEvt]
  | stake =>
    refine ⟨fun _ => ?_, fun he => nomatch he⟩
    simp only [processOp]
    unfold processStake
    split_ifs with h1 h2 h3
    · simp [noCheckAfterMut, Event.isMutEvt, Event.isCheckEvt]
    · simp [noCheckAfterMut, Event.isMutEvt, Event.isCheckEvt]
    · simp [noCheckAfterMut, Event.isMutEvt, Event.isCheckEvt]
    · cases hde : deserializeInfo st.data with
      | none => simp [noCheckAfterMut, Event.isMutEvt, Event.isCheckEvt]
      | some d =>
        dsimp only
        split_ifs with h4 h5 h6 <;>
          simp [noCheckAfterMut, Event.isMutEvt, Event.isCheckEvt]
  | redeem =>
    refine ⟨fun _ => ?_, fun he => nomatch he⟩
    simp only [processOp]
    unfold processRedeem
    split_ifs with h1 h2 h3
    · simp [noCheckAfterMut, Event.isMutEvt, Event.isCheckEvt]
    · simp [noCheckAfterMut, Event.isMutEvt, Event.isCheckEvt]
    · simp [noCheckAfterMut, Event.isMutEvt, Event.isCheckEvt]
    · cases hde : deserializeInfo st.data with
      | none => simp [noCheckAfterMut, Event.isMutEvt, Event.isCheckEvt]
      | some d =>
        dsimp only
        split_ifs with h4 h5 h6 h7 h8 <;>
          simp [noCheckAfterMut, Event.isMutEvt, Event.isCheckEvt]
  | unstake =>
    refine ⟨fun _ => ?_, fun he => nomatch he⟩
    simp only [processOp]
    unfold processUnstake
    split_ifs with h1 h2 h3
    · simp [noCheckAfterMut, Event.isMutEvt, Event.isCheckEvt]
    · simp [noCheckAfterMut, Event.isMutEvt, Event.isCheckEvt]
    · simp [noCheckAfterMut, Event.isMutEvt, Event.isCheckEvt]
    · cases hde : deserializeInfo st.data with
      | none => simp [noCheckAfterMut, Event.isMutEvt, Event.isCheckEvt]
      | some d =>
        dsimp only
        split_ifs with h4 h5 h6 h7 h8 <;>
          simp [noCheckAfterMut, Event.isMutEvt, Event.isCheckEvt]
  
/-- Witness for C5 (amended): a concrete stake run has no check after a
mutation; a concrete initialize run starts with the derivation check. -/
theorem c5_witness :
    noCheckAfterMut (processOp .stake 7 dv0 envB initedAcct).trace = true ∧
    (processOp .initAccount 7 dv0 envB freshAcct).trace.head? =
      some (Event.check .pdaCheck) :=
  ⟨(c5_validate_before_mutate_amended .stake 7 dv0 envB initedAcct).1
      (by decide),
   ((c5_validate_before_mutate_amended .initAccount 7 dv0 envB
      freshAcct).2 rfl).1⟩

/-- Claim C8: on a successful redeem every field of the stored record other
than `lastRedeemTime` — `is_initialized`, `user` (owner), `token_account`
(holding), `stake_start_time`, `is_stake_active` — is unchanged, and
`lastRedeemTime` becomes the clock reading (reduced to the i64 range, as the
8-byte encoding stores it); the account's address, owner and lamports are
also untouched. -/
theorem c8_redeem_frame (pid : Nat) (dv : Nat → Nat → Nat) (env : Env)
    (st : Account) (d : UserStakeInfo)
    (hwf : ∀ b ∈ st.data, b < 256)
    (hde : deserializeInfo st.data = some d)
    (hok : (processOp .redeem pid dv env st).res.isOk = true) :
    deserializeInfo ((processOp .redeem pid dv env st).res.account).data =
      some { d with lastRedeemTime := wrapI64 env.unixTimestamp } ∧
    ((processOp .redeem pid dv env st).res.account).key = st.key ∧
    ((processOp .redeem pid dv env st).res.account).owner = st.owner ∧
    ((processOp .redeem pid dv env st).res.account).lamports = st.lamports := by
  cases hres : (processOp .redeem pid dv env st).res with
  | fail e a => rw [hres] at hok; simp [StepResult.isOk] at hok
  | crash a => rw [hres] at hok; simp [StepResult.isOk] at hok
  | ok a' r =>
    obtain ⟨d0, hde0, -, -, -, -, -, -, -, -, ha'⟩ := processRedeem_ok hres
    obtain rfl : d0 = d := Option.some.inj (hde0.symm.trans hde)
    subst ha'
    obtain ⟨hu, ht⟩ := deserializeInfo_wf_bounds hwf hde
    obtain ⟨⟨hs1, hs2⟩, -⟩ := deserializeInfo_time_range hde
    refine ⟨?_, rfl, rfl, rfl⟩
    simp only [StepResult.account, deserializeInfo_append, canonInfo,
      redeemUpd, Nat.mod_eq_of_lt hu, Nat.mod_eq_of_lt ht,
      wrapI64_eq_self _ hs1 hs2]

/-- Witness for C8: redeeming the concrete staked account at clock 1100
leaves all fields but `lastRedeemTime` unchanged. -/
theorem c8_witness :
    deserializeInfo
        ((processOp .redeem 7 dv0 envC stakedAcct).res.account).data =
      some { stakedRec with lastRedeemTime := wrapI64 envC.unixTimestamp } ∧
    ((processOp .redeem 7 dv0 envC stakedAcct).res.account).key =
      stakedAcct.key ∧
    ((processOp .redeem 7 dv0 envC stakedAcct).res.account).owner =
      stakedAcct.owner ∧
    ((processOp .redeem 7 dv0 envC stakedAcct).res.account).lamports =
      stakedAcct.lamports :=
  c8_redeem_frame 7 dv0 envC stakedAcct stakedRec (by decide) (by decide)
    (by decide)

/-- Claim C6: in every state reachable from uninitialized storage by
successful operations, a stored record with `active = true` also has
`initialized = true`. -/
theorem c6_active_implies_init (pid : Nat) (dv : Nat → Nat → Nat)
    (a : Account) (h : Reachable pid dv a) (d : UserStakeInfo)
    (hd : deserializeInfo a.data = some d)
    (hact : d.isStakeActive = true) : d.initDone = true :=
  reachable_initDone h d hd

/-- Witness for C6: the concrete account reached by initialize-then-stake
stores an active record, and the claim yields its `initialized` flag. -/
theorem c6_witness :
    deserializeInfo stakedAcct.data = some stakedRec ∧
    stakedRec.isStakeActive = true ∧
    stakedRec.initDone = true := by
  refine ⟨by decide, by decide, ?_⟩
  refine c6_active_implies_init 7 dv0 stakedAcct ?_ stakedRec (by decide)
    (by decide)
  refine Reachable.step initedAcct stakedAcct .stake envB none ?_ (by decide)
  exact Reachable.step freshAcct initedAcct .initAccount envB none
    (Reachable.base (dv0 5 6)) (by decide)

/-- Counterexample for C7 as stated: with a (constant, hence non-decreasing)
negative clock reading `-5`, initialize stores `lastRedeemTime = 0` and the
following successful stake lowers it to `-5`: strictly decreasing across two
successful operations. -/
theorem c7_counterexample :
    (processOp .initAccount 7 dv0 envNeg freshAcct).res = .ok initedAcct none ∧
    lastRedeemOf initedAcct = 0 ∧
    envNeg.unixTimestamp ≤ envNeg.unixTimestamp ∧
    (processOp .stake 7 dv0 envNeg initedAcct).res.isOk = true ∧
    lastRedeemOf (processOp .stake 7 dv0 envNeg initedAcct).res.account =
      -5 ∧
    ¬(lastRedeemOf initedAcct ≤
        lastRedeemOf (processOp .stake 7 dv0 envNeg initedAcct).res.account) := by
  decide

/-- Claim C7, amended: across successful operations on the same record with
clock readings that are non-decreasing, nonnegative and in the i64 range,
the stored `lastRedeemTime` is monotonically non-decreasing (nonnegative
clocks are needed because initialize stores `lastRedeemTime = 0`, which a
later negative clock would undercut). -/
theorem c7_last_redeem_monotone_amended (pid : Nat) (dv : Nat → Nat → Nat)
    (c : Int) (a : Account) (op : Op) (env : Env) (a' : Account)
    (r : Option Int)
    (h : ReachTimed pid dv c a)
    (hm : c ≤ env.unixTimestamp) (hup : env.unixTimestamp < 2 ^ 63)
    (hs : (processOp op pid dv env a).res = .ok a' r) :
    lastRedeemOf a ≤ lastRedeemOf a' := by
  have hc0 : (0 : Int) ≤ c := reachTimed_nonneg h
  cases op with
  | initAccount =>
    obtain ⟨-, -, -, hdata, -, ha'⟩ := processInit_ok hs
    subst ha'
    rw [show lastRedeemOf a = 0 by
      simp [lastRedeemOf, hdata, deserializeInfo, readByte]]
    simp [lastRedeemOf, deserializeInfo_append, canonInfo, initUpd,
      zeroRec, wrapI64_eq_self 0 (by norm_num) (by norm_num)]
  | stake =>
    obtain ⟨d0, hde, -, -, -, -, -, -, ha'⟩ := processStake_ok hs
    obtain ⟨-, hbound⟩ := reachTimed_lastRedeem h d0 hde
    subst ha'
    simp [lastRedeemOf, hde, deserializeInfo_append, canonInfo, stakeUpd,
      wrapI64_eq_self env.unixTimestamp (by omega) hup]
    omega
  | redeem =>
    obtain ⟨d0, hde, -, -, -, -, -, -, -, -, ha'⟩ := processRedeem_ok hs
    obtain ⟨-, hbound⟩ := reachTimed_lastRedeem h d0 hde
    subst ha'
    simp [lastRedeemOf, hde, deserializeInfo_append, canonInfo, redeemUpd,
      wrapI64_eq_self env.unixTimestamp (by omega) hup]
    omega
  | unstake =>
    obtain ⟨d0, hde, -, -, -, -, -, -, -, -, ha'⟩ := processUnstake_ok hs
    obtain ⟨-, hbound⟩ := reachTimed_lastRedeem h d0 hde
    subst ha'
    simp [lastRedeemOf, hde, deserializeInfo_append, canonInfo, unstakeUpd,
      wrapI64_eq_self env.unixTimestamp (by omega) hup]
    omega

/-- Witness for C7 (amended): after initialize-then-stake at clock 1000, a
redeem at clock 1100 does not decrease the stored `lastRedeemTime`. -/
theorem c7_witness :
    (1000 : Int) ≤ envC.unixTimestamp ∧
    lastRedeemOf stakedAcct ≤ lastRedeemOf redeemedAcct := by
  refine ⟨by decide, ?_⟩
  have ht : ReachTimed 7 dv0 1000 stakedAcct := by
    refine ReachTimed.step 1000 initedAcct stakedAcct .stake envB none ?_
      (by decide) (by decide) (by decide)
    exact ReachTimed.step 1000 freshAcct initedAcct .initAccount envB none
      (ReachTimed.base (dv0 5 6) 1000 (by norm_num)) (le_refl _) (by decide)
      (by decide)
  exact c7_last_redeem_monotone_amended 7 dv0 1000 stakedAcct .redeem envC
    redeemedAcct (some 100) ht (by decide) (by decide) (by decide)

end NftStake
